import Mathlib

/-!
Verification development for the Stress_tester repository.

We give a shallow embedding of the concurrent stress-generation and
measurement engine: the `TimeManager` clock, the memory allocator worker and
bandwidth sampling round of `MemoryStressTest`, the CPU hashing worker of
`CPUStressTest`, and the orchestrator's core-detection startup.  C++ doubles
are modelled as `Rat`, machine counters as `Nat`, monotonic-clock instants as
`Int` nanosecond ticks.  Thread interleaving is modelled by explicit
environment functions: `env k` is the value the worker observes for its k-th
evaluation of the loop guard (`running && timeManager.shouldContinue(...)`),
and `alloc k` is whether the k-th allocation attempt succeeds (false models
`std::bad_alloc`).  Loops that the C++ code runs until externally stopped are
given explicit fuel; every theorem quantifies over the fuel.
-/

/-! ## TimeManager (TimeManager.hpp) -/

/-- State of `TimeManager`: `startTime`/`endTime` are `steady_clock`
time points modelled as integer nanosecond ticks, with the `testStarted` and
`testEnded` flags. -/
structure TimeManager where
  startTime : Int
  endTime : Int
  testStarted : Bool
  testEnded : Bool
deriving DecidableEq, Repr

/-- A fresh `TimeManager` (both flags false, as after construction or
`reset()`). -/
def TimeManager.initState : TimeManager := ⟨0, 0, false, false⟩

/-- `TimeManager::startTimer()`: records `now` if not already started. -/
def TimeManager.startTimer (s : TimeManager) (now : Int) : TimeManager :=
  if !s.testStarted then { s with startTime := now, testStarted := true } else s

/-- `TimeManager::endTimer()`: records `now` if started and not already
ended. -/
def TimeManager.endTimer (s : TimeManager) (now : Int) : TimeManager :=
  if s.testStarted && !s.testEnded then
    { s with endTime := now, testEnded := true }
  else s

/-- `TimeManager::getElapsedSeconds()`: zero when not started, otherwise the
difference between (`endTime` if ended else `now`) and `startTime`,
truncated to microseconds and divided by 1e6 as a double (here `Rat`). -/
def TimeManager.getElapsedSeconds (s : TimeManager) (now : Int) : Rat :=
  if !s.testStarted then 0
  else
    let currentTime := if s.testEnded then s.endTime else now
    let micros : Int := (currentTime - s.startTime) / 1000
    (micros : Rat) / 1000000

/-- `TimeManager::getElapsedMilliseconds()`: zero when not started, otherwise
the same difference truncated to milliseconds. -/
def TimeManager.getElapsedMilliseconds (s : TimeManager) (now : Int) : Int :=
  if !s.testStarted then 0
  else
    let currentTime := if s.testEnded then s.endTime else now
    (currentTime - s.startTime) / 1000000

/-- `TimeManager::shouldContinue(maxDurationSeconds)`: compares the elapsed
seconds (a double) against the `int` bound. -/
def TimeManager.shouldContinue (s : TimeManager) (now : Int)
    (maxDurationSeconds : Int) : Bool :=
  decide (s.getElapsedSeconds now < (maxDurationSeconds : Rat))

/-! ## Constants (MemoryStressTest.hpp, CPUStressTest.hpp) -/

/-- `MULTIPLIER = 2` (MemoryStressTest.hpp). -/
def MULTIPLIER : Nat := 2

/-- `TARGET_MEMORY = 1024 * 1024 * 1024` (1 GiB). -/
def TARGET_MEMORY : Nat := 1024 * 1024 * 1024

/-- `BANDWIDTH_TEST_SIZE = 64 * 1024 * 1024` (64 MiB test buffer). -/
def BANDWIDTH_TEST_SIZE : Nat := 64 * 1024 * 1024

/-- `blockSize = 1024 * 1024` (1 MiB, local constant of
`memoryStressTest`). -/
def blockSize : Nat := 1024 * 1024

/-- The allocation ceiling of the integrated variant's loop guard:
`(MULTIPLIER * TARGET_MEMORY) - BANDWIDTH_TEST_SIZE`. -/
def allocCeiling : Nat := MULTIPLIER * TARGET_MEMORY - BANDWIDTH_TEST_SIZE

/-- The overall memory target `MULTIPLIER * TARGET_MEMORY` (what
`getTargetMemory()` reports). -/
def targetCeiling : Nat := MULTIPLIER * TARGET_MEMORY

/-! ## Bandwidth measurement round (MemoryStressTest::measureMemoryBandwidth) -/

/-- The three raw measurements of one bandwidth iteration, in MiB/s. -/
structure BandwidthIteration where
  readBW : Rat
  writeBW : Rat
  randomBW : Rat
deriving DecidableEq, Repr

/-- `std::max({readBW, writeBW, randomBW * 2})`: the per-iteration result
with the random-access measurement weighted by 2. -/
def iterationMaxBW (it : BandwidthIteration) : Rat :=
  max (max it.readBW it.writeBW) (it.randomBW * 2)

/-- The sanity check `maxBW > 0 && maxBW < 1000000` guarding accumulation. -/
def isValidBW (r : Rat) : Bool :=
  decide (0 < r) && decide (r < 1000000)

/-- One iteration of the accumulation loop: add `maxBW` to `totalBandwidth`
and bump `validTests` when the sanity check passes. -/
def bwFold (acc : Rat × Nat) (it : BandwidthIteration) : Rat × Nat :=
  let maxBW := iterationMaxBW it
  if isValidBW maxBW then (acc.1 + maxBW, acc.2 + 1) else acc

/-- `MemoryStressTest::measureMemoryBandwidth` over the list of iterations
actually executed (the loop may stop early on `bandwidthTestRunning`):
publishes `totalBandwidth / validTests` when `validTests > 0`, otherwise
leaves the previously published value `prev` untouched. -/
def measureMemoryBandwidth (iters : List BandwidthIteration) (prev : Rat) :
    Rat :=
  let r := iters.foldl bwFold (0, 0)
  if 0 < r.2 then r.1 / (r.2 : Rat) else prev

/-- The valid per-iteration results, written as a filter (used to state what
the fold computes). -/
def validResults (iters : List BandwidthIteration) : List Rat :=
  (iters.map iterationMaxBW).filter isValidBW

/-! ## Memory allocator worker (MemoryStressTest::memoryStressTest) -/

/-- Observable state of the allocator worker: the `memoryAllocated` counter,
the retention list (each retained block recorded by its byte size), and the
number of error reports printed by the `bad_alloc` handler. -/
structure MemState where
  bytesAllocated : Nat
  memoryBlocks : List Nat
  errorReports : Nat
deriving DecidableEq, Repr

/-- Initial allocator state (`memoryAllocated = 0`, empty list). -/
def memInit : MemState := ⟨0, [], 0⟩

/-- The loop guard
`running && memoryAllocated < (MULTIPLIER*TARGET_MEMORY) - BANDWIDTH_TEST_SIZE
&& timeManager.shouldContinue(TEST_DURATION)`, with `env` the combined value
of the two environment conjuncts at this evaluation. -/
def memGuard (env : Bool) (s : MemState) : Bool :=
  env && decide (s.bytesAllocated < allocCeiling)

/-- A successful loop body: allocate one 1 MiB block, add `blockSize` to the
counter, append the block to the retention list. -/
def memAllocStep (s : MemState) : MemState :=
  { s with
      bytesAllocated := s.bytesAllocated + blockSize,
      memoryBlocks := s.memoryBlocks ++ [blockSize] }

/-- The allocator worker's loop, returning the full trace of observable
states (one entry per guard evaluation, plus the state after a caught
failure).  `env k` is the k-th observed value of
`running && shouldContinue(TEST_DURATION)`; `alloc k` is whether the k-th
allocation succeeds.  A failed allocation is caught by the
`catch (const std::bad_alloc&)` handler, which prints one report and leaves
the loop; nothing is rolled back and nothing further runs. -/
def memoryStressTestRun (env alloc : Nat → Bool) :
    Nat → Nat → MemState → List MemState
  | 0, _, s => [s]
  | fuel + 1, k, s =>
    if memGuard (env k) s then
      if alloc k then
        s :: memoryStressTestRun env alloc fuel (k + 1) (memAllocStep s)
      else
        [s, { s with errorReports := s.errorReports + 1 }]
    else [s]

/-- The allocator trace from the initialized state. -/
def memTrace (env alloc : Nat → Bool) (fuel : Nat) : List MemState :=
  memoryStressTestRun env alloc fuel 0 memInit

/-! ## CPU hashing worker (CPUStressTest::cpuHashStressTest) -/

/-- `BATCH_SIZE = 4500`. -/
def BATCH_SIZE : Nat := 4500

/-- `CHUNK_SIZE = 1`. -/
def CHUNK_SIZE : Nat := 1

/-- Observable events of one CPU worker: a guard observation (`check b`, with
`b` the observed value of `running && shouldContinue`), one completed hash
operation (`hashOp`), and one `fetch_add` on the shared `hashOps` counter
(`flush n`). -/
inductive CpuEvent where
  | check (b : Bool)
  | hashOp
  | flush (n : Nat)
deriving DecidableEq, Repr

/-- The inner `for (i = 0; i < BATCH_SIZE && running && shouldContinue; ++i)`
loop.  Arguments: remaining iterations `r = BATCH_SIZE - i`, observation
index `t`, and `localHashOps`.  Returns the events emitted, the next
observation index, and the final `localHashOps`.  Each iteration performs
one hash operation, increments `localHashOps`, and flushes `CHUNK_SIZE`
whenever `localHashOps % CHUNK_SIZE == 0`. -/
def cpuInnerLoop (env : Nat → Bool) :
    Nat → Nat → Nat → List CpuEvent × Nat × Nat
  | 0, t, localOps => ([], t, localOps)
  | r + 1, t, localOps =>
    if env t then
      if (localOps + 1) % CHUNK_SIZE = 0 then
        (CpuEvent.check true :: CpuEvent.hashOp ::
          CpuEvent.flush CHUNK_SIZE :: (cpuInnerLoop env r (t + 1) 0).1,
         (cpuInnerLoop env r (t + 1) 0).2)
      else
        (CpuEvent.check true :: CpuEvent.hashOp ::
          (cpuInnerLoop env r (t + 1) (localOps + 1)).1,
         (cpuInnerLoop env r (t + 1) (localOps + 1)).2)
    else ([CpuEvent.check false], t + 1, localOps)

/-- The outer `while (running && shouldContinue)` loop with explicit fuel.
After each batch, any leftover `localHashOps > 0` is flushed and zeroed
before the guard is re-evaluated. -/
def cpuOuterLoop (env : Nat → Bool) : Nat → Nat → Nat → List CpuEvent
  | 0, _, _ => []
  | fuel + 1, t, localOps =>
    if env t then
      CpuEvent.check true ::
        (cpuInnerLoop env BATCH_SIZE (t + 1) localOps).1 ++
        (if 0 < (cpuInnerLoop env BATCH_SIZE (t + 1) localOps).2.2 then
          [CpuEvent.flush (cpuInnerLoop env BATCH_SIZE (t + 1) localOps).2.2]
        else []) ++
        cpuOuterLoop env fuel (cpuInnerLoop env BATCH_SIZE (t + 1) localOps).2.1 0
    else [CpuEvent.check false]

/-- Full event trace of one CPU worker run (`localHashOps` starts at 0). -/
def cpuTrace (env : Nat → Bool) (fuel : Nat) : List CpuEvent :=
  cpuOuterLoop env fuel 0 0

/-- Whether an event is an observation of the guard being false. -/
def isFalseCheck : CpuEvent → Bool
  | CpuEvent.check false => true
  | _ => false

/-- Whether an event is an observation of the guard being true. -/
def isTrueCheck : CpuEvent → Bool
  | CpuEvent.check true => true
  | _ => false

/-- Whether an event is a flush (a registry mutation). -/
def isFlush : CpuEvent → Bool
  | CpuEvent.flush _ => true
  | _ => false

/-- The events a worker emits strictly after its first observation of the
guard being false. -/
def afterFirstStop (tr : List CpuEvent) : List CpuEvent :=
  (tr.dropWhile (fun e => !isFalseCheck e)).tail

/-- The amount a single event adds to the shared `hashOps` counter. -/
def flushAmount : CpuEvent → Nat
  | CpuEvent.flush n => n
  | _ => 0

/-- Total amount added to the shared `hashOps` counter by the flushes of a
trace. -/
def flushTotal (tr : List CpuEvent) : Nat :=
  (tr.map flushAmount).sum

/-- Whether an event is a completed hash operation. -/
def isOpEvent : CpuEvent → Bool
  | CpuEvent.hashOp => true
  | _ => false

/-- Number of completed hash operations in a trace. -/
def opCount (tr : List CpuEvent) : Nat :=
  tr.countP isOpEvent

/-- Value of the shared `hashOps` counter (above its initial value) after the
first `t` events of a trace. -/
def hashOpsAt (tr : List CpuEvent) (t : Nat) : Nat :=
  flushTotal (tr.take t)

/-! ## Orchestrator startup (CPUStressTest::initialize / start) -/

/-- The fatal configuration error of startup. -/
inductive StressError where
  | zeroCoresDetected
deriving DecidableEq, Repr

/-- The worker threads spawned by a successful startup. -/
structure SpawnedWorkers where
  cpuWorkerIds : List Nat
  memWorkerSpawned : Bool
  bandwidthWorkerSpawned : Bool
deriving DecidableEq, Repr

/-- `initialize()`: `numCores = std::thread::hardware_concurrency();
assert(numCores > 0 && "Failed to detect CPU cores")` — a zero core count is
a fatal error before anything is spawned. -/
def initializeCores (detectedCores : Nat) : Except StressError Nat :=
  if detectedCores = 0 then Except.error StressError.zeroCoresDetected
  else Except.ok detectedCores

/-- `start()`: `for (int i = 0; i < numCores; ++i)
cpuThreads.emplace_back(..., i)` plus the memory and bandwidth threads of the
integrated variant. -/
def startWorkers (numCores : Nat) : SpawnedWorkers :=
  ⟨List.range numCores, true, true⟩

/-- Startup: initialization first; workers are spawned only if it
succeeded. -/
def runOrchestrator (detectedCores : Nat) : Except StressError SpawnedWorkers :=
  match initializeCores detectedCores with
  | Except.error e => Except.error e
  | Except.ok n => Except.ok (startWorkers n)

/-! ## Random-access index list (MemoryStressTest::performRandomAccess) -/

/-- The index list built by `performRandomAccess` before shuffling:
`indices[i] = (i * 64) % size` for `i < numAccesses = size / 64`. -/
def performRandomAccessIndices (size : Nat) : List Nat :=
  (List.range (size / 64)).map (fun i => (i * 64) % size)

/-- The offsets visited by `for (size_t i = 0; i < size; i += 64)`. -/
def seqReadAux (size i : Nat) : List Nat :=
  if i < size then i :: seqReadAux size (i + 64) else []
termination_by size - i
decreasing_by omega

/-- The offsets read by `performSequentialRead` (stride 64 from 0). -/
def performSequentialReadIndices (size : Nat) : List Nat :=
  seqReadAux size 0

/-! ## Theorems: Clock (claims C3, C4, C5) -/

/-- Claim C3 counterexample: the claim asserts `shouldContinue` returns true
for every `maxDurationSeconds` whenever the Clock has not been started, but
on a fresh (unstarted) Clock with `maxDurationSeconds = 0` the code returns
`0 < 0`, i.e. false. -/
theorem C3_counterexample :
    TimeManager.initState.testStarted = false ∧
    TimeManager.initState.shouldContinue 5 0 = false := by
  constructor
  · rfl
  · decide

/-- Claim C3 (amended): `shouldContinue(maxDurationSeconds)` returns
`elapsedSeconds() < maxDurationSeconds`, and returns true whenever the Clock
has not yet been started provided `maxDurationSeconds` is positive. -/
theorem C3_shouldContinue (s : TimeManager) (now maxD : Int) :
    s.shouldContinue now maxD =
      decide (s.getElapsedSeconds now < (maxD : Rat)) ∧
    (s.testStarted = false → 0 < maxD → s.shouldContinue now maxD = true) := by
  refine ⟨rfl, fun h hm => ?_⟩
  simp only [TimeManager.shouldContinue, TimeManager.getElapsedSeconds, h,
    Bool.not_false, if_true, decide_eq_true_eq]
  exact_mod_cast hm

/-- Claim C3 witness: on a fresh Clock with a positive duration bound,
`shouldContinue` returns true. -/
theorem C3_witness : TimeManager.initState.shouldContinue 5 30 = true :=
  (C3_shouldContinue TimeManager.initState 5 30).2 rfl (by norm_num)

/-- Claim C4: `getElapsedSeconds` / `getElapsedMilliseconds` return zero when
not started, the frozen `endTime - startTime` difference when ended, and the
`now - startTime` difference when started but not ended; once ended the
result no longer depends on the current time. -/
theorem C4_elapsed (s : TimeManager) (now now1 now2 : Int) :
    (s.testStarted = false →
      s.getElapsedSeconds now = 0 ∧ s.getElapsedMilliseconds now = 0) ∧
    (s.testStarted = true → s.testEnded = true →
      s.getElapsedSeconds now =
        (((s.endTime - s.startTime) / 1000 : Int) : Rat) / 1000000 ∧
      s.getElapsedMilliseconds now = (s.endTime - s.startTime) / 1000000) ∧
    (s.testStarted = true → s.testEnded = false →
      s.getElapsedSeconds now =
        (((now - s.startTime) / 1000 : Int) : Rat) / 1000000 ∧
      s.getElapsedMilliseconds now = (now - s.startTime) / 1000000) ∧
    (s.testEnded = true →
      s.getElapsedSeconds now1 = s.getElapsedSeconds now2 ∧
      s.getElapsedMilliseconds now1 = s.getElapsedMilliseconds now2) := by
  obtain ⟨st, en, ts, te⟩ := s
  cases ts <;> cases te <;>
    simp [TimeManager.getElapsedSeconds, TimeManager.getElapsedMilliseconds]

/-- Claim C4 witness: a Clock started at tick 0 and ended at tick
3000000000 (3e9 ns) reports 3 seconds and 3000 milliseconds regardless of
the current time. -/
theorem C4_witness :
    TimeManager.getElapsedSeconds ⟨0, 3000000000, true, true⟩ 999 = 3 ∧
    TimeManager.getElapsedMilliseconds ⟨0, 3000000000, true, true⟩ 999 = 3000 ∧
    TimeManager.getElapsedSeconds ⟨0, 3000000000, true, true⟩ 5 =
      TimeManager.getElapsedSeconds ⟨0, 3000000000, true, true⟩ 77 := by
  have h := C4_elapsed ⟨0, 3000000000, true, true⟩ 999 5 77
  refine ⟨?_, ?_, (h.2.2.2 rfl).1⟩
  · rw [(h.2.1 rfl rfl).1]; norm_num
  · rw [(h.2.1 rfl rfl).2]; decide

/-- Claim C5: the Clock lifecycle is idempotent — a second `startTimer` is a
no-op (same `startTime`, same whole state), and a second `endTimer` is a
no-op (same `endTime`, same whole state). -/
theorem C5_idempotent (s : TimeManager) (t1 t2 t3 : Int) :
    (s.startTimer t1).startTimer t2 = s.startTimer t1 ∧
    (s.endTimer t2).endTimer t3 = s.endTimer t2 ∧
    ((s.startTimer t1).startTimer t2).startTime = (s.startTimer t1).startTime ∧
    (((s.startTimer t1).endTimer t2).endTimer t3).endTime =
      ((s.startTimer t1).endTimer t2).endTime := by
  obtain ⟨st, en, ts, te⟩ := s
  cases ts <;> cases te <;>
    simp [TimeManager.startTimer, TimeManager.endTimer]

/-! ## Theorems: orchestrator startup (claim C9) -/

/-- Claim C9: zero detected cores makes startup fail with the fatal
configuration error before any worker is spawned (the error result carries
no spawned workers); with at least one core, initialization succeeds and
exactly one CPU worker per detected core is spawned. -/
theorem C9_zero_core_abort (detectedCores : Nat) :
    (detectedCores = 0 →
      runOrchestrator detectedCores =
        Except.error StressError.zeroCoresDetected) ∧
    (0 < detectedCores →
      initializeCores detectedCores = Except.ok detectedCores ∧
      runOrchestrator detectedCores = Except.ok (startWorkers detectedCores) ∧
      (startWorkers detectedCores).cpuWorkerIds.length = detectedCores) ∧
    (∀ w, runOrchestrator detectedCores = Except.ok w →
      w.cpuWorkerIds.length = detectedCores) := by
  refine ⟨fun h => by subst h; rfl, fun h => ?_, fun w hw => ?_⟩
  · have hne : detectedCores ≠ 0 := Nat.pos_iff_ne_zero.mp h
    refine ⟨?_, ?_, ?_⟩ <;>
      simp [initializeCores, runOrchestrator, startWorkers, hne]
  · by_cases hz : detectedCores = 0
    · subst hz
      simp [runOrchestrator, initializeCores] at hw
    · simp [runOrchestrator, initializeCores, hz] at hw
      subst hw
      simp [startWorkers]

/-- Claim C9 witness: with 0 cores startup errors out; with 4 cores it
spawns exactly 4 CPU workers. -/
theorem C9_witness :
    runOrchestrator 0 = Except.error StressError.zeroCoresDetected ∧
    runOrchestrator 4 = Except.ok (startWorkers 4) ∧
    (startWorkers 4).cpuWorkerIds.length = 4 :=
  ⟨(C9_zero_core_abort 0).1 rfl, ((C9_zero_core_abort 4).2.1 (by norm_num)).2.1,
    ((C9_zero_core_abort 4).2.1 (by norm_num)).2.2⟩

/-! ## Theorems: random-access index permutation (claim C10) -/

/-- The stride-64 walk from offset `64 * j` through a buffer of size
`64 * (j + d)` visits exactly the offsets `64 * (j + t)` for `t < d`. -/
theorem seqReadAux_eq (d j : Nat) :
    seqReadAux (64 * (j + d)) (64 * j) =
      (List.range d).map (fun t => 64 * (j + t)) := by
  induction d generalizing j with
  | zero =>
    rw [seqReadAux]
    simp
  | succ d ih =>
    rw [seqReadAux, if_pos (by omega : 64 * j < 64 * (j + (d + 1)))]
    have h64 : 64 * j + 64 = 64 * (j + 1) := by ring
    have harg : 64 * (j + (d + 1)) = 64 * ((j + 1) + d) := by ring
    rw [h64, harg, ih (j + 1), List.range_succ_eq_map, List.map_cons,
      List.map_map]
    refine List.cons_eq_cons.mpr ⟨by omega, ?_⟩
    apply List.map_congr_left
    intro a _
    simp only [Function.comp_apply, Nat.succ_eq_add_one]
    omega

/-- `performSequentialRead` on a buffer of size `64 * k` reads exactly the
strided offsets `0, 64, ..., 64 * (k - 1)`, in order. -/
theorem performSequentialReadIndices_eq (k : Nat) :
    performSequentialReadIndices (64 * k) =
      (List.range k).map (fun t => t * 64) := by
  have h := seqReadAux_eq k 0
  simp only [Nat.zero_add, Nat.mul_zero] at h
  rw [performSequentialReadIndices, h]
  apply List.map_congr_left
  intro a _
  omega

/-- The index list built by `performRandomAccess` on a buffer of size
`64 * k` equals, before shuffling, exactly the strided offset list. -/
theorem performRandomAccessIndices_eq (k : Nat) :
    performRandomAccessIndices (64 * k) =
      (List.range k).map (fun t => t * 64) := by
  unfold performRandomAccessIndices
  rw [Nat.mul_div_cancel_left k (by norm_num : 0 < 64)]
  apply List.map_congr_left
  intro i hi
  rw [List.mem_range] at hi
  exact Nat.mod_eq_of_lt (by omega)

/-- The strided offset list has no duplicates. -/
theorem stridedNodup (k : Nat) :
    ((List.range k).map (fun t => t * 64)).Nodup :=
  (List.nodup_range k).map (fun a b h => by omega)

/-- Claim C10: for a buffer whose size is a positive multiple of 64, any
shuffle of the index list built by `performRandomAccess` is a permutation of
the strided offsets read by `performSequentialRead`: it reads each strided
offset exactly once, performs `size / 64` reads in total, and touches no
other location. -/
theorem C10_random_access (k : Nat) (hk : 0 < k) (shuffled : List Nat)
    (hperm : shuffled.Perm (performRandomAccessIndices (64 * k))) :
    shuffled.Perm (performSequentialReadIndices (64 * k)) ∧
    shuffled.length = 64 * k / 64 ∧
    (∀ o ∈ performSequentialReadIndices (64 * k), shuffled.count o = 1) ∧
    ∀ o ∈ shuffled, o ∈ performSequentialReadIndices (64 * k) := by
  have hr := performRandomAccessIndices_eq k
  have hs := performSequentialReadIndices_eq k
  have hperm2 : shuffled.Perm ((List.range k).map (fun t => t * 64)) :=
    hr ▸ hperm
  refine ⟨?_, ?_, fun o ho => ?_, fun o ho => ?_⟩
  · rw [hs]
    exact hperm2
  · rw [hperm2.length_eq, List.length_map, List.length_range,
      Nat.mul_div_cancel_left k (by norm_num : 0 < 64)]
  · rw [hs] at ho
    rw [hperm2.count_eq]
    exact List.count_eq_one_of_mem (stridedNodup k) ho
  · rw [hs]
    exact hperm2.mem_iff.mp ho

/-- Claim C10 witness: for `k = 1` (a 64-byte buffer) the only shuffle is
`[0]`, which is a permutation of the sequential pass and has one read. -/
theorem C10_witness :
    ([0] : List Nat).Perm (performSequentialReadIndices (64 * 1)) ∧
    ([0] : List Nat).length = 64 * 1 / 64 :=
  ⟨(C10_random_access 1 Nat.one_pos [0] (by decide)).1,
    (C10_random_access 1 Nat.one_pos [0] (by decide)).2.1⟩

/-! ## Theorems: bandwidth measurement round (claim C1) -/

/-- The accumulation loop of `measureMemoryBandwidth` computes the sum and
the count of the valid per-iteration results. -/
theorem bwFold_eq (iters : List BandwidthIteration) (a : Rat) (n : Nat) :
    iters.foldl bwFold (a, n) =
      (a + (validResults iters).sum, n + (validResults iters).length) := by
  induction iters generalizing a n with
  | nil => simp [validResults]
  | cons it rest ih =>
    rw [List.foldl_cons]
    by_cases hv : isValidBW (iterationMaxBW it) = true
    · have hb : bwFold (a, n) it = (a + iterationMaxBW it, n + 1) := by
        simp [bwFold, hv]
      have hvr : validResults (it :: rest) =
          iterationMaxBW it :: validResults rest := by
        simp [validResults, hv]
      rw [hb, ih, hvr]
      apply Prod.ext
      · simp only [List.sum_cons]
        ring
      · simp only [List.length_cons]
        omega
    · have hb : bwFold (a, n) it = (a, n) := by
        simp [bwFold, hv]
      have hvr : validResults (it :: rest) = validResults rest := by
        simp [validResults, hv]
      rw [hb, ih, hvr]

/-- Claim C1 counterexample: a per-iteration result of exactly 1e6 MiB/s
lies in the claimed validity interval `(0, 1e6]`, yet the code's check
`maxBW > 0 && maxBW < 1000000` rejects it, so a round whose only result is
exactly 1e6 keeps the previous published value instead of publishing the
mean 1e6. -/
theorem C1_counterexample :
    iterationMaxBW ⟨1000000, 0, 0⟩ = 1000000 ∧
    (0 : Rat) < 1000000 ∧ (1000000 : Rat) ≤ 1000000 ∧
    isValidBW 1000000 = false ∧
    measureMemoryBandwidth [⟨1000000, 0, 0⟩] 42 = 42 := by
  have h1 : iterationMaxBW ⟨1000000, 0, 0⟩ = 1000000 := by
    rw [iterationMaxBW]
    show max (max (1000000 : Rat) 0) (0 * 2) = 1000000
    rw [zero_mul, max_eq_left (by norm_num : (0 : Rat) ≤ 1000000),
      max_eq_left (by norm_num : (0 : Rat) ≤ 1000000)]
  have h2 : isValidBW 1000000 = false := by
    have hn : ¬ ((1000000 : Rat) < 1000000) := lt_irrefl _
    simp [isValidBW, hn]
  have h3 : validResults [⟨1000000, 0, 0⟩] = [] := by
    simp [validResults, h1, h2]
  refine ⟨h1, by norm_num, le_refl _, h2, ?_⟩
  simp only [measureMemoryBandwidth, bwFold_eq, h3, List.length_nil,
    List.sum_nil, Nat.zero_add, zero_add]
  rw [if_neg (lt_irrefl 0)]

/-- Claim C1 (amended): each iteration's result is
`max(readBW, writeBW, 2 * randomBW)`; a result counts as valid exactly when
it lies in the open interval `(0, 1e6)` MiB/s; with at least one valid
iteration the published bandwidth is the arithmetic mean of the valid
results, and with none the previous published value is returned
unchanged. -/
theorem C1_bandwidth_round (iters : List BandwidthIteration) (prev : Rat) :
    (∀ it ∈ iters,
      iterationMaxBW it = max (max it.readBW it.writeBW) (it.randomBW * 2)) ∧
    (∀ r : Rat, isValidBW r = true ↔ 0 < r ∧ r < 1000000) ∧
    ((validResults iters).length ≠ 0 →
      measureMemoryBandwidth iters prev =
        (validResults iters).sum / ((validResults iters).length : Rat)) ∧
    ((validResults iters).length = 0 →
      measureMemoryBandwidth iters prev = prev) := by
  refine ⟨fun it _ => rfl, fun r => by simp [isValidBW], fun h => ?_,
    fun h => ?_⟩
  · simp only [measureMemoryBandwidth, bwFold_eq, Nat.zero_add, zero_add]
    rw [if_pos (Nat.pos_of_ne_zero h)]
  · simp only [measureMemoryBandwidth, bwFold_eq, Nat.zero_add, zero_add]
    rw [if_neg (by omega)]

/-- Claim C1 witness: a round with the single iteration `(3, 1, 1)` has the
one valid result 3 and publishes its mean 3. -/
theorem C1_witness :
    measureMemoryBandwidth [(⟨3, 1, 1⟩ : BandwidthIteration)] 7 =
      (validResults [(⟨3, 1, 1⟩ : BandwidthIteration)]).sum /
        ((validResults [(⟨3, 1, 1⟩ : BandwidthIteration)]).length : Rat) := by
  have h1 : iterationMaxBW ⟨3, 1, 1⟩ = 3 := by
    rw [iterationMaxBW]
    show max (max (3 : Rat) 1) (1 * 2) = 3
    rw [one_mul, max_eq_left (by norm_num : (1 : Rat) ≤ 3),
      max_eq_left (by norm_num : (2 : Rat) ≤ 3)]
  have h2 : isValidBW 3 = true := by
    norm_num [isValidBW]
  refine (C1_bandwidth_round [(⟨3, 1, 1⟩ : BandwidthIteration)] 7).2.2.1 ?_
  simp [validResults, h1, h2]

/-! ## Theorems: memory allocator worker (claims C2, C6) -/

/-- Arithmetic fact behind the ceiling bound: both the block size and the
ceiling are multiples of 1 MiB, so an allocation fired while strictly below
the ceiling lands at or below it. -/
theorem memCeil_step {x : Nat} (hdvd : blockSize ∣ x) (h : x < allocCeiling) :
    x + blockSize ≤ allocCeiling := by
  obtain ⟨a, rfl⟩ := hdvd
  have hc : allocCeiling = blockSize * 1984 := by decide
  rw [hc] at h ⊢
  have ha : a < 1984 := by
    by_contra hh
    push_neg at hh
    have := Nat.mul_le_mul_left blockSize hh
    omega
  calc blockSize * a + blockSize = blockSize * (a + 1) := by ring
  _ ≤ blockSize * 1984 := Nat.mul_le_mul_left blockSize (by omega)

/-- Loop invariant of the allocator: from a state whose counter is a
multiple of the block size and at most the ceiling, every state the loop
reaches keeps both properties. -/
theorem memRun_invariant (env alloc : Nat → Bool) :
    ∀ fuel k s, blockSize ∣ s.bytesAllocated →
      s.bytesAllocated ≤ allocCeiling →
      ∀ s' ∈ memoryStressTestRun env alloc fuel k s,
        blockSize ∣ s'.bytesAllocated ∧ s'.bytesAllocated ≤ allocCeiling := by
  intro fuel
  induction fuel with
  | zero =>
    intro k s hd hle s' hs'
    rw [memoryStressTestRun, List.mem_singleton] at hs'
    subst hs'
    exact ⟨hd, hle⟩
  | succ fuel ih =>
    intro k s hd hle s' hs'
    rw [memoryStressTestRun] at hs'
    cases hg : memGuard (env k) s with
    | false =>
      rw [if_neg (by rw [hg]; exact Bool.false_ne_true),
        List.mem_singleton] at hs'
      subst hs'
      exact ⟨hd, hle⟩
    | true =>
      rw [if_pos hg] at hs'
      cases ha : alloc k with
      | false =>
        rw [if_neg (by rw [ha]; exact Bool.false_ne_true)] at hs'
        rcases List.mem_cons.mp hs' with rfl | hs'
        · exact ⟨hd, hle⟩
        · rw [List.mem_singleton] at hs'
          subst hs'
          exact ⟨hd, hle⟩
      | true =>
        rw [if_pos ha] at hs'
        rcases List.mem_cons.mp hs' with rfl | hs'
        · exact ⟨hd, hle⟩
        · have hlt : s.bytesAllocated < allocCeiling := by
            have hg' := hg
            simp only [memGuard, Bool.and_eq_true, decide_eq_true_eq] at hg'
            exact hg'.2
          exact ih (k + 1) (memAllocStep s)
            (by simpa [memAllocStep] using hd.add dvd_rfl)
            (by simpa [memAllocStep] using memCeil_step hd hlt) s' hs'

/-- Claim C2: along every run of the integrated allocator loop from the
initialized state, the `memoryAllocated` counter stays at or below the
adjusted ceiling `(MULTIPLIER * TARGET_MEMORY) - BANDWIDTH_TEST_SIZE` (in
particular it never exceeds it by more than one block), and the peak of
allocated blocks plus the separately reserved bandwidth buffer never
exceeds `MULTIPLIER * TARGET_MEMORY`. -/
theorem C2_ceiling (env alloc : Nat → Bool) (fuel : Nat) :
    ∀ s ∈ memTrace env alloc fuel,
      s.bytesAllocated ≤ allocCeiling ∧
      s.bytesAllocated ≤ allocCeiling + blockSize ∧
      s.bytesAllocated + BANDWIDTH_TEST_SIZE ≤ targetCeiling := by
  intro s hs
  obtain ⟨hd, hle⟩ := memRun_invariant env alloc fuel 0 memInit
    (dvd_zero _) (Nat.zero_le _) s hs
  have hsum : allocCeiling + BANDWIDTH_TEST_SIZE = targetCeiling := by decide
  exact ⟨hle, le_trans hle (Nat.le_add_right _ _), by omega⟩

/-- Claim C2 witness: the run of length one from the initialized state
contains the initial state, and the bounds hold there. -/
theorem C2_witness :
    memInit ∈ memTrace (fun _ => true) (fun _ => true) 1 ∧
    memInit.bytesAllocated ≤ allocCeiling ∧
    memInit.bytesAllocated + BANDWIDTH_TEST_SIZE ≤ targetCeiling := by
  have hm : memInit ∈ memTrace (fun _ => true) (fun _ => true) 1 := by decide
  exact ⟨hm, (C2_ceiling (fun _ => true) (fun _ => true) 1 memInit hm).1,
    (C2_ceiling (fun _ => true) (fun _ => true) 1 memInit hm).2.2⟩

/-- Error reports only grow by at most one along any allocator run: the
single catch handler fires at most once because it terminates the loop. -/
theorem memRun_errors (env alloc : Nat → Bool) :
    ∀ fuel k s, ∀ s' ∈ memoryStressTestRun env alloc fuel k s,
      s'.errorReports ≤ s.errorReports + 1 := by
  intro fuel
  induction fuel with
  | zero =>
    intro k s s' hs'
    rw [memoryStressTestRun, List.mem_singleton] at hs'
    subst hs'
    omega
  | succ fuel ih =>
    intro k s s' hs'
    rw [memoryStressTestRun] at hs'
    cases hg : memGuard (env k) s with
    | false =>
      rw [if_neg (by rw [hg]; exact Bool.false_ne_true),
        List.mem_singleton] at hs'
      subst hs'
      omega
    | true =>
      rw [if_pos hg] at hs'
      cases ha : alloc k with
      | false =>
        rw [if_neg (by rw [ha]; exact Bool.false_ne_true)] at hs'
        rcases List.mem_cons.mp hs' with rfl | hs'
        · omega
        · rw [List.mem_singleton] at hs'
          subst hs'
          simp
      | true =>
        rw [if_pos ha] at hs'
        rcases List.mem_cons.mp hs' with rfl | hs'
        · omega
        · have := ih (k + 1) (memAllocStep s) s' hs'
          simp only [memAllocStep] at this
          omega

/-- Claim C6: when an allocation attempt fails (models `bad_alloc`), the
loop body's catch handler adds exactly one error report and terminates the
run: the resulting trace ends at a state identical to the pre-failure state
except for that one report — the counter and every retained block are
unchanged, no further allocation happens, and the worker returns normally
(the failure does not escape).  Moreover no run from the initialized state
ever emits more than one error report. -/
theorem C6_allocation_failure (env alloc : Nat → Bool) :
    (∀ fuel k s, memGuard (env k) s = true → alloc k = false →
      memoryStressTestRun env alloc (fuel + 1) k s =
        [s, { s with errorReports := s.errorReports + 1 }]) ∧
    (∀ fuel, ∀ s' ∈ memTrace env alloc fuel, s'.errorReports ≤ 1) := by
  constructor
  · intro fuel k s hg ha
    rw [memoryStressTestRun, if_pos hg,
      if_neg (by rw [ha]; exact Bool.false_ne_true)]
  · intro fuel s' hs'
    have := memRun_errors env alloc fuel 0 memInit s' hs'
    simpa [memInit] using this

/-- Claim C6 witness: with every allocation failing, the run from the
initialized state is exactly the initial state followed by the same state
with one error report. -/
theorem C6_witness :
    memoryStressTestRun (fun _ => true) (fun _ => false) 1 0 memInit =
      [memInit, { memInit with errorReports := memInit.errorReports + 1 }] ∧
    ∀ s' ∈ memTrace (fun _ => true) (fun _ => false) 1, s'.errorReports ≤ 1 := by
  constructor
  · exact (C6_allocation_failure (fun _ => true) (fun _ => false)).1 0 0 memInit
      (by decide) rfl
  · exact (C6_allocation_failure (fun _ => true) (fun _ => false)).2 1

/-! ## Theorems: CPU hashing worker (claims C7, C8) -/

/-- `flushTotal` distributes over concatenation. -/
theorem flushTotal_append (a b : List CpuEvent) :
    flushTotal (a ++ b) = flushTotal a + flushTotal b := by
  simp [flushTotal]

/-- `opCount` distributes over concatenation. -/
theorem opCount_append (a b : List CpuEvent) :
    opCount (a ++ b) = opCount a + opCount b := by
  simp [opCount, List.countP_append]

/-- With `CHUNK_SIZE = 1`, a worker entering the inner batch loop with an
empty local counter flushes every completed operation inside the loop: the
flush total equals the operation count and the local counter leaves at 0. -/
theorem cpuInnerLoop_conservation (env : Nat → Bool) :
    ∀ r t, flushTotal (cpuInnerLoop env r t 0).1 =
        opCount (cpuInnerLoop env r t 0).1 ∧
      (cpuInnerLoop env r t 0).2.2 = 0 := by
  intro r
  induction r with
  | zero => intro t; exact ⟨rfl, rfl⟩
  | succ r ih =>
    intro t
    rw [cpuInnerLoop]
    cases he : env t with
    | false =>
      rw [if_neg Bool.false_ne_true]
      exact ⟨rfl, rfl⟩
    | true =>
      rw [if_pos rfl, if_pos (by decide : (0 + 1) % CHUNK_SIZE = 0)]
      refine ⟨?_, (ih (t + 1)).2⟩
      have h1 := (ih (t + 1)).1
      simp [flushTotal, opCount, List.countP_cons, flushAmount, isOpEvent,
        CHUNK_SIZE] at h1 ⊢
      omega

/-- The inner batch loop's event list contains a false guard observation
only as its very last event: either the batch completes with every
observation true, or the list ends at the first false observation, whose
index precedes the returned observation counter. -/
theorem cpuInnerLoop_shape (env : Nat → Bool) :
    ∀ r t localOps,
      (∀ e ∈ (cpuInnerLoop env r t localOps).1, isFalseCheck e = false) ∨
      (∃ pre t0,
        (cpuInnerLoop env r t localOps).1 = pre ++ [CpuEvent.check false] ∧
        (∀ e ∈ pre, isFalseCheck e = false) ∧ env t0 = false ∧
        (cpuInnerLoop env r t localOps).2.1 = t0 + 1 ∧ t ≤ t0) := by
  intro r
  induction r with
  | zero =>
    intro t localOps
    left
    intro e he
    simp [cpuInnerLoop] at he
  | succ r ih =>
    intro t localOps
    rw [cpuInnerLoop]
    cases he : env t with
    | false =>
      rw [if_neg Bool.false_ne_true]
      right
      exact ⟨[], t, rfl, by simp, he, rfl, le_refl t⟩
    | true =>
      rw [if_pos rfl]
      by_cases hc : (localOps + 1) % CHUNK_SIZE = 0
      · rw [if_pos hc]
        rcases ih (t + 1) 0 with hall | ⟨pre, t0, heq, hpre, ht0, ht1, hle⟩
        · left
          intro e he'
          simp only [List.mem_cons] at he'
          rcases he' with rfl | rfl | rfl | hmem
          · rfl
          · rfl
          · rfl
          · exact hall e hmem
        · right
          refine ⟨CpuEvent.check true :: CpuEvent.hashOp ::
            CpuEvent.flush CHUNK_SIZE :: pre, t0, ?_, ?_, ht0, ht1, by omega⟩
          · simp only [heq, List.cons_append]
          · intro e he'
            simp only [List.mem_cons] at he'
            rcases he' with rfl | rfl | rfl | hmem
            · rfl
            · rfl
            · rfl
            · exact hpre e hmem
      · rw [if_neg hc]
        rcases ih (t + 1) (localOps + 1) with hall | ⟨pre, t0, heq, hpre, ht0, ht1, hle⟩
        · left
          intro e he'
          simp only [List.mem_cons] at he'
          rcases he' with rfl | rfl | hmem
          · rfl
          · rfl
          · exact hall e hmem
        · right
          refine ⟨CpuEvent.check true :: CpuEvent.hashOp :: pre, t0, ?_, ?_,
            ht0, ht1, by omega⟩
          · simp only [heq, List.cons_append]
          · intro e he'
            simp only [List.mem_cons] at he'
            rcases he' with rfl | rfl | hmem
            · rfl
            · rfl
            · exact hpre e hmem

/-- Every flush the inner loop emits adds the positive amount
`CHUNK_SIZE`. -/
theorem cpuInnerLoop_flush_pos (env : Nat → Bool) :
    ∀ r t localOps n,
      CpuEvent.flush n ∈ (cpuInnerLoop env r t localOps).1 → 0 < n := by
  intro r
  induction r with
  | zero =>
    intro t localOps n hn
    simp [cpuInnerLoop] at hn
  | succ r ih =>
    intro t localOps n hn
    rw [cpuInnerLoop] at hn
    by_cases he : env t = true
    · rw [if_pos he] at hn
      by_cases hc : (localOps + 1) % CHUNK_SIZE = 0
      · rw [if_pos hc] at hn
        simp only [List.mem_cons] at hn
        rcases hn with h | h | h | h
        · exact CpuEvent.noConfusion h
        · exact CpuEvent.noConfusion h
        · injection h with h'
          subst h'
          decide
        · exact ih (t + 1) 0 n h
      · rw [if_neg hc] at hn
        simp only [List.mem_cons] at hn
        rcases hn with h | h | h
        · exact CpuEvent.noConfusion h
        · exact CpuEvent.noConfusion h
        · exact ih (t + 1) (localOps + 1) n h
    · rw [if_neg he] at hn
      simp only [List.mem_singleton] at hn
      exact CpuEvent.noConfusion hn

/-- Every flush the worker emits adds a positive amount: `CHUNK_SIZE` from
an inner flush, or a leftover local count guarded by `localHashOps > 0`. -/
theorem cpuOuterLoop_flush_pos (env : Nat → Bool) :
    ∀ fuel t localOps n,
      CpuEvent.flush n ∈ cpuOuterLoop env fuel t localOps → 0 < n := by
  intro fuel
  induction fuel with
  | zero =>
    intro t localOps n hn
    simp [cpuOuterLoop] at hn
  | succ fuel ih =>
    intro t localOps n hn
    rw [cpuOuterLoop] at hn
    by_cases he : env t = true
    · rw [if_pos he] at hn
      simp only [List.mem_cons, List.mem_append, or_assoc] at hn
      rcases hn with h | h | h | h
      · exact CpuEvent.noConfusion h
      · exact cpuInnerLoop_flush_pos env BATCH_SIZE (t + 1) localOps n h
      · by_cases hz :
          0 < (cpuInnerLoop env BATCH_SIZE (t + 1) localOps).2.2
        · rw [if_pos hz] at h
          simp only [List.mem_singleton] at h
          injection h with h'
          subst h'
          exact hz
        · rw [if_neg hz] at h
          simp at h
      · exact ih _ 0 n h
    · rw [if_neg he] at hn
      simp only [List.mem_singleton] at hn
      exact CpuEvent.noConfusion hn

/-- `dropWhile` over a dropped-through block: a block with no false guard
observation is skipped entirely. -/
theorem dropWhile_append_of_all (xs ys : List CpuEvent)
    (h : ∀ e ∈ xs, isFalseCheck e = false) :
    (xs ++ ys).dropWhile (fun e => !isFalseCheck e) =
      ys.dropWhile (fun e => !isFalseCheck e) := by
  induction xs with
  | nil => rfl
  | cons a xs ih =>
    have ha : isFalseCheck a = false := h a (List.mem_cons_self a xs)
    rw [List.cons_append, List.dropWhile_cons, ha]
    simp only [Bool.not_false, if_true]
    exact ih fun e he => h e (List.mem_cons_of_mem a he)

/-- A trace with no false guard observation has no events after its (absent)
first stop observation. -/
theorem afterFirstStop_all (tr : List CpuEvent)
    (h : ∀ e ∈ tr, isFalseCheck e = false) :
    afterFirstStop tr = [] := by
  have h2 := dropWhile_append_of_all tr [] h
  rw [List.append_nil] at h2
  rw [afterFirstStop, h2]
  rfl

/-- `afterFirstStop` skips any leading block free of false observations. -/
theorem afterFirstStop_skip (xs ys : List CpuEvent)
    (h : ∀ e ∈ xs, isFalseCheck e = false) :
    afterFirstStop (xs ++ ys) = afterFirstStop ys := by
  rw [afterFirstStop, afterFirstStop, dropWhile_append_of_all xs ys h]

/-- `afterFirstStop` of a block free of false observations followed by a
false observation is exactly what comes after that observation. -/
theorem afterFirstStop_append (xs ys : List CpuEvent)
    (h : ∀ e ∈ xs, isFalseCheck e = false) :
    afterFirstStop (xs ++ CpuEvent.check false :: ys) = ys := by
  rw [afterFirstStop, dropWhile_append_of_all xs _ h, List.dropWhile_cons]
  simp [isFalseCheck]

/-- Main stop lemma for the CPU worker (with the stop signal monotone: once
the observed guard is false it stays false): after the worker's first false
observation the remaining trace is empty or a single further false
observation from the outer guard — no hash operation and no flush. -/
theorem cpuOuterLoop_afterStop (env : Nat → Bool)
    (hmono : ∀ i j, i ≤ j → env j = true → env i = true) :
    ∀ fuel t, afterFirstStop (cpuOuterLoop env fuel t 0) = [] ∨
      afterFirstStop (cpuOuterLoop env fuel t 0) = [CpuEvent.check false] := by
  intro fuel
  induction fuel with
  | zero =>
    intro t
    left
    rfl
  | succ fuel ih =>
    intro t
    by_cases he : env t = true
    · rw [cpuOuterLoop, if_pos he]
      have hz : ¬ (0 < (cpuInnerLoop env BATCH_SIZE (t + 1) 0).2.2) := by
        rw [(cpuInnerLoop_conservation env BATCH_SIZE (t + 1)).2]
        exact lt_irrefl 0
      rw [if_neg hz, List.append_nil]
      rcases cpuInnerLoop_shape env BATCH_SIZE (t + 1) 0 with
        hall | ⟨pre, t0, heq, hpre, ht0, ht1, hle⟩
      · rw [afterFirstStop_skip]
        · exact ih (cpuInnerLoop env BATCH_SIZE (t + 1) 0).2.1
        · intro e he'
          rcases List.mem_cons.mp he' with rfl | hmem
          · rfl
          · exact hall e hmem
      · rw [heq, ht1, List.cons_append, List.append_assoc,
          List.singleton_append, ← List.cons_append, afterFirstStop_append]
        · have hrecF : env (t0 + 1) = false := by
            cases hE : env (t0 + 1)
            · rfl
            · have h1 := hmono t0 (t0 + 1) (Nat.le_succ t0) hE
              rw [ht0] at h1
              exact absurd h1 Bool.false_ne_true
          cases fuel with
          | zero =>
            left
            rfl
          | succ fuel2 =>
            right
            rw [cpuOuterLoop, if_neg (by rw [hrecF]; exact Bool.false_ne_true)]
        · intro e he'
          rcases List.mem_cons.mp he' with rfl | hmem
          · rfl
          · exact hpre e hmem
    · rw [cpuOuterLoop, if_neg he]
      left
      rfl

/-- The full worker trace from an empty local counter flushes exactly its
operation count: no completed work is lost and none is double-counted. -/
theorem cpuOuterLoop_conservation (env : Nat → Bool) :
    ∀ fuel t, flushTotal (cpuOuterLoop env fuel t 0) =
      opCount (cpuOuterLoop env fuel t 0) := by
  intro fuel
  induction fuel with
  | zero => intro t; rfl
  | succ fuel ih =>
    intro t
    by_cases he : env t = true
    · rw [cpuOuterLoop, if_pos he]
      have hz : ¬ (0 < (cpuInnerLoop env BATCH_SIZE (t + 1) 0).2.2) := by
        rw [(cpuInnerLoop_conservation env BATCH_SIZE (t + 1)).2]
        exact lt_irrefl 0
      rw [if_neg hz, List.append_nil, flushTotal_append,
        opCount_append, ih ((cpuInnerLoop env BATCH_SIZE (t + 1) 0).2.1)]
      have h1 := (cpuInnerLoop_conservation env BATCH_SIZE (t + 1)).1
      simp [flushTotal, opCount, List.countP_cons, flushAmount, isOpEvent]
        at h1 ⊢
      omega
    · rw [cpuOuterLoop, if_neg he]
      rfl

/-- Claim C8: with the stop signal monotone (once observed false it stays
false — the `running` flag transitions true to false once and the Clock only
advances), the CPU worker's trace after its first false observation contains
no hash operation, no further true observation, and at most one flush; the
trace ends within two further events (the worker exits immediately); and
over the whole run the flush total equals the operation count: any partially
completed batch is flushed exactly once, so no completed work is lost at
exit and nothing is counted twice. -/
theorem C8_worker_stop (env : Nat → Bool) (fuel : Nat)
    (hmono : ∀ i j, i ≤ j → env j = true → env i = true) :
    opCount (afterFirstStop (cpuTrace env fuel)) = 0 ∧
    (afterFirstStop (cpuTrace env fuel)).countP isTrueCheck = 0 ∧
    (afterFirstStop (cpuTrace env fuel)).countP isFlush ≤ 1 ∧
    (afterFirstStop (cpuTrace env fuel)).length ≤ 2 ∧
    flushTotal (cpuTrace env fuel) = opCount (cpuTrace env fuel) := by
  have hcons := cpuOuterLoop_conservation env fuel 0
  rcases cpuOuterLoop_afterStop env hmono fuel 0 with h | h <;>
    rw [cpuTrace, h] <;>
    exact ⟨rfl, rfl, by decide, by decide, hcons⟩

/-- Claim C8 witness: with the guard observed false from the start, the
worker's trace is a single false observation and nothing follows it. -/
theorem C8_witness :
    opCount (afterFirstStop (cpuTrace (fun _ => false) 1)) = 0 ∧
    (afterFirstStop (cpuTrace (fun _ => false) 1)).length ≤ 2 ∧
    flushTotal (cpuTrace (fun _ => false) 1) =
      opCount (cpuTrace (fun _ => false) 1) := by
  have h := C8_worker_stop (fun _ => false) 1
    (fun i j hij hj => absurd hj Bool.false_ne_true)
  exact ⟨h.1, h.2.2.2.1, h.2.2.2.2⟩

/-- Along any allocator run, the counter never drops below its starting
value. -/
theorem memRun_ge (env alloc : Nat → Bool) :
    ∀ fuel k s, ∀ s' ∈ memoryStressTestRun env alloc fuel k s,
      s.bytesAllocated ≤ s'.bytesAllocated := by
  intro fuel
  induction fuel with
  | zero =>
    intro k s s' hs'
    rw [memoryStressTestRun, List.mem_singleton] at hs'
    subst hs'
    exact le_refl _
  | succ fuel ih =>
    intro k s s' hs'
    rw [memoryStressTestRun] at hs'
    by_cases hg : memGuard (env k) s = true
    · rw [if_pos hg] at hs'
      by_cases ha : alloc k = true
      · rw [if_pos ha] at hs'
        rcases List.mem_cons.mp hs' with rfl | hs'
        · exact le_refl _
        · have := ih (k + 1) (memAllocStep s) s' hs'
          simp only [memAllocStep] at this
          omega
      · rw [if_neg ha] at hs'
        rcases List.mem_cons.mp hs' with rfl | hs'
        · exact le_refl _
        · rw [List.mem_singleton] at hs'
          subst hs'
          simp
    · rw [if_neg hg, List.mem_singleton] at hs'
      subst hs'
      exact le_refl _

/-- The head of any allocator run is its starting state. -/
theorem memRun_head (env alloc : Nat → Bool) (fuel k : Nat) (s : MemState) :
    (memoryStressTestRun env alloc fuel k s).head? = some s := by
  cases fuel with
  | zero => rfl
  | succ fuel =>
    rw [memoryStressTestRun]
    by_cases hg : memGuard (env k) s = true
    · rw [if_pos hg]
      by_cases ha : alloc k = true
      · rw [if_pos ha]
        rfl
      · rw [if_neg ha]
        rfl
    · rw [if_neg hg]
      rfl

/-- The allocator trace is sorted by the counter: later sampled states never
show fewer allocated bytes. -/
theorem memRun_pairwise (env alloc : Nat → Bool) :
    ∀ fuel k s, (memoryStressTestRun env alloc fuel k s).Pairwise
      (fun a b => a.bytesAllocated ≤ b.bytesAllocated) := by
  intro fuel
  induction fuel with
  | zero =>
    intro k s
    simp [memoryStressTestRun]
  | succ fuel ih =>
    intro k s
    rw [memoryStressTestRun]
    by_cases hg : memGuard (env k) s = true
    · rw [if_pos hg]
      by_cases ha : alloc k = true
      · rw [if_pos ha]
        refine List.pairwise_cons.mpr ⟨?_, ih (k + 1) (memAllocStep s)⟩
        intro b hb
        have := memRun_ge env alloc fuel (k + 1) (memAllocStep s) b hb
        simp only [memAllocStep] at this
        omega
      · rw [if_neg ha]
        refine List.pairwise_cons.mpr ⟨?_, by simp⟩
        intro b hb
        rw [List.mem_singleton] at hb
        subst hb
        simp
    · rw [if_neg hg]
      simp

/-- Every consecutive pair of sampled allocator states differs by exactly
one retained 1 MiB block (a successful allocation) or not at all (the error
report step). -/
theorem memRun_chain (env alloc : Nat → Bool) :
    ∀ fuel k s, List.Chain'
      (fun a b => (b.bytesAllocated = a.bytesAllocated + blockSize ∧
          b.memoryBlocks = a.memoryBlocks ++ [blockSize]) ∨
        (b.bytesAllocated = a.bytesAllocated ∧
          b.memoryBlocks = a.memoryBlocks))
      (memoryStressTestRun env alloc fuel k s) := by
  intro fuel
  induction fuel with
  | zero =>
    intro k s
    simp [memoryStressTestRun]
  | succ fuel ih =>
    intro k s
    rw [memoryStressTestRun]
    by_cases hg : memGuard (env k) s = true
    · rw [if_pos hg]
      by_cases ha : alloc k = true
      · rw [if_pos ha]
        refine List.chain'_cons'.mpr ⟨?_, ih (k + 1) (memAllocStep s)⟩
        intro b hb
        rw [memRun_head env alloc fuel (k + 1) (memAllocStep s)] at hb
        simp only [Option.mem_def, Option.some.injEq] at hb
        subst hb
        left
        exact ⟨rfl, rfl⟩
      · rw [if_neg ha]
        refine List.chain'_cons.mpr ⟨Or.inr ⟨rfl, rfl⟩, by simp⟩
    · rw [if_neg hg]
      simp

/-- The running value of the shared counter is monotone in the number of
observed events. -/
theorem flushTotal_take_mono (tr : List CpuEvent) (t1 t2 : Nat)
    (h : t1 ≤ t2) :
    flushTotal (tr.take t1) ≤ flushTotal (tr.take t2) := by
  calc flushTotal (tr.take t1)
      ≤ flushTotal (tr.take t1) + flushTotal ((tr.drop t1).take (t2 - t1)) :=
        Nat.le_add_right _ _
  _ = flushTotal (tr.take t1 ++ (tr.drop t1).take (t2 - t1)) :=
        (flushTotal_append _ _).symm
  _ = flushTotal (tr.take (t1 + (t2 - t1))) := by rw [List.take_add]
  _ = flushTotal (tr.take t2) := by rw [Nat.add_sub_cancel' h]

/-- Claim C7: the counters only ever grow.  Every flush the CPU worker
performs on `hashOperations` adds a positive amount (`CHUNK_SIZE` or a
guarded leftover local count), so the shared counter value after `t2`
events is at least its value after `t1 ≤ t2` events; and every mutation of
`bytesAllocated` adds exactly one `blockSize` (with the matching retained
block) or nothing, so sampled allocator states are monotone in the
counter. -/
theorem C7_monotonic (env alloc : Nat → Bool) (fuel : Nat) :
    (∀ n, CpuEvent.flush n ∈ cpuTrace env fuel → 0 < n) ∧
    (∀ t1 t2, t1 ≤ t2 →
      hashOpsAt (cpuTrace env fuel) t1 ≤ hashOpsAt (cpuTrace env fuel) t2) ∧
    List.Chain'
      (fun a b => (b.bytesAllocated = a.bytesAllocated + blockSize ∧
          b.memoryBlocks = a.memoryBlocks ++ [blockSize]) ∨
        (b.bytesAllocated = a.bytesAllocated ∧
          b.memoryBlocks = a.memoryBlocks))
      (memTrace env alloc fuel) ∧
    (memTrace env alloc fuel).Pairwise
      (fun a b => a.bytesAllocated ≤ b.bytesAllocated) :=
  ⟨fun n hn => cpuOuterLoop_flush_pos env fuel 0 0 n hn,
    fun t1 t2 h => flushTotal_take_mono (cpuTrace env fuel) t1 t2 h,
    memRun_chain env alloc fuel 0 memInit,
    memRun_pairwise env alloc fuel 0 memInit⟩

set_option maxRecDepth 40000

/-- Claim C7 witness: in a short run whose guard is true twice then false,
the single flush adds the positive amount 1, and the counter value is
monotone across the whole trace. -/
theorem C7_witness :
    (0 : Nat) < 1 ∧
    hashOpsAt (cpuTrace (fun i => decide (i < 2)) 2) 0 ≤
      hashOpsAt (cpuTrace (fun i => decide (i < 2)) 2) 5 := by
  have h := C7_monotonic (fun i => decide (i < 2)) (fun _ => true) 2
  exact ⟨h.1 1 (by decide), h.2.1 0 5 (by omega)⟩
